import Mathlib

/-!
Verification development for the pgc data-access layer.

Shallow embedding of the pgc engine (query-option DSL and builder from
pgcq/query.go, the type-model field selection from the model code, the CRUD
adapter operations, the error-classification predicates from ops.go, and the
migration update loop).  Go's mutable `*Query` accumulator is modelled by
explicit state passing; Go panics and returned errors are both modelled by
`Except String`; a database round trip is modelled as the `SQLCall` value the
adapter would hand to the driver (so an error result means no SQL reaches the
database).  Bind values are opaque to the engine (they are only ever appended
to the argument list), and are modelled as `String`.
-/

namespace Pgc

/-- Whether `pat` occurs as a contiguous run inside `l`. -/
def listContains (pat : List Char) : List Char → Bool
  | [] => List.isPrefixOf pat []
  | c :: rest => List.isPrefixOf pat (c :: rest) || listContains pat rest

/-- Substring test, matching Go's `strings.Contains(s, substr)`. -/
def goContains (s substr : String) : Bool :=
  listContains substr.toList s.toList

/-- Go's `strings.HasPrefix(s, pref)`. -/
def goHasPrefix (s pref : String) : Bool :=
  List.isPrefixOf pref.toList s.toList

/-- Go's `strings.HasSuffix(s, suf)`. -/
def goHasSuffix (s suf : String) : Bool :=
  List.isSuffixOf suf.toList s.toList

/-- Go's `strings.ToLower` (ASCII range, which is all the engine compares). -/
def goToLower (s : String) : String :=
  String.mk (s.toList.map Char.toLower)

/-! ## Query DSL (pgcq/query.go) -/

/-- comparison operators -/
def ltOp : String := "<"

def lteOp : String := "<="

def eqOp : String := "="

def neqOp : String := "!="

def gtOp : String := ">"

def gteOp : String := ">="

def likeOp : String := "LIKE"

def OpSelect : String := "select"

def OpInsert : String := "insert"

def OpUpdate : String := "update"

def OpDelete : String := "delete"

/-- Option classifier codes (the Go `iota + 1` constant block). -/
def typeQuery : Nat := 1

def typePagination : Nat := 2

def typeOrder : Nat := 3

def typeHaving : Nat := 4

def typeColumns : Nat := 5

def typeJoin : Nat := 6

def typeQueryAll : Nat := 7

/-- DefaultSelectLimit sets the default limit for select if no limit specified. -/
def DefaultSelectLimit : Int := 1000

/-- JoinConfig describes join config (the struct pointer itself is reflective
and is not part of the query-building state modelled here). -/
structure JoinConfig where
  Condition : String
  Columns : List String
  TableName : String
deriving Repr, DecidableEq

/-- Query keeps query data during its building (pgcq.Query). `QueryFrag` is the
Go field `Query` (renamed to avoid shadowing the structure name). -/
structure Query where
  limit : Int := 0
  offset : Int := 0
  order : List String := []
  group : List String := []
  queryType : String := ""
  Args : List String := []
  Columns : List String := []
  QueryFrag : String := ""
  Having : String := ""
  IsQueryAll : Bool := false
  Joins : List JoinConfig := []
deriving Repr, DecidableEq

/-- The query-option vocabulary: one constructor per exported pgcq option
constructor.  `OR`/`AND` are variadic in Go, hence take lists. -/
inductive QOpt where
  | equal (field : String) (value : String)
  | notEqual (field : String) (value : String)
  | lessThan (field : String) (value : String)
  | lessOrEqual (field : String) (value : String)
  | greaterThan (field : String) (value : String)
  | greaterOrEqual (field : String) (value : String)
  | like (field : String) (pattern : String)
  | raw (query : String) (args : List String)
  | inOpt (field : String) (values : List String)
  | orOpt (opts : List QOpt)
  | andOpt (opts : List QOpt)
  | all
  | having (opts : List QOpt)
  | groupBy (columns : List String)
  | limit (n : Int)
  | offset (n : Int)
  | order (field : String) (orderBy : String)
  | columns (cols : List String)
  | join (condition : String) (cols : List String)
deriving Repr

/-- Body of the Go `where` helper: quote the field unless it contains `(` or is
already quoted, append the value to the args, emit `field op $N`. -/
def whereOpt (field : String) (cmp : String) (value : String) (q : Query) :
    Except String (String × Nat × Query) :=
  if field = "" then .error "field cannot be empty"
  else
    let argNum := q.Args.length + 1
    let q := { q with Args := q.Args ++ [value] }
    let field :=
      if !(goContains field "(") && !(goHasPrefix field "\"" && goHasSuffix field "\"") then
        "\"" ++ field ++ "\""
      else field
    .ok (field ++ " " ++ cmp ++ " $" ++ toString argNum, typeQuery, q)

/-- Raw's placeholder rewriting: each `?` becomes the next positional
placeholder, counting from the existing args. -/
def rawRewrite (existing : Nat) : List Char → Nat → String → Nat × String
  | [], argLen, buf => (argLen, buf)
  | c :: rest, argLen, buf =>
    if c = '?' then
      rawRewrite existing rest (argLen + 1) (buf ++ "$" ++ toString (argLen + 1 + existing))
    else
      rawRewrite existing rest argLen (buf.push c)

mutual

/-- Evaluates one query option against the in-progress query, mirroring the
corresponding Go option closure body. -/
def evalOpt : QOpt → Query → Except String (String × Nat × Query)
  | .equal f v, q => whereOpt f eqOp v q
  | .notEqual f v, q => whereOpt f neqOp v q
  | .lessThan f v, q => whereOpt f ltOp v q
  | .lessOrEqual f v, q => whereOpt f lteOp v q
  | .greaterThan f v, q => whereOpt f gtOp v q
  | .greaterOrEqual f v, q => whereOpt f gteOp v q
  | .like f p, q => whereOpt f likeOp p q
  | .raw query args, q =>
    if query = "" then .error "query cannot be empty"
    else
      let res := rawRewrite q.Args.length query.toList 0 ""
      if res.1 ≠ args.length then
        .error ("raw query expected (" ++ toString res.1 ++ ") arguments, provided (" ++
          toString args.length ++ ") arguments")
      else
        .ok (res.2, typeQuery, { q with Args := q.Args ++ args })
  | .inOpt field values, q =>
    if field = "" then .error "field cannot be empty"
    else if values.length = 0 then .error "IN values cannot be empty"
    else
      let start := q.Args.length
      let queryArgs := (List.range values.length).map (fun i => "$" ++ toString (start + i + 1))
      .ok ("\"" ++ field ++ "\" IN (" ++ String.intercalate "," queryArgs ++ ")",
        typeQuery, { q with Args := q.Args ++ values })
  | .orOpt opts, q => do
    let (queries, q') ← evalWhereList "cannot pass not a search query to OR confition" opts q
    if queries.length = 0 then .ok ("", 0, q')
    else .ok ("(" ++ String.intercalate " OR " queries ++ ")", typeQuery, q')
  | .andOpt opts, q => do
    let (queries, q') ← evalWhereList "cannot pass not a search query to AND condition" opts q
    if queries.length = 0 then .ok ("", 0, q')
    else .ok ("(" ++ String.intercalate " AND " queries ++ ")", typeQuery, q')
  | .all, q => .ok ("", typeQueryAll, q)
  | .having opts, q =>
    if q.queryType ≠ OpSelect then .error ("cannot use having in (" ++ q.queryType ++ ")")
    else do
      let (queries, q') ← evalWhereList "cannot pass not a search query to AND condition" opts q
      let optQuery :=
        if queries.length = 0 then "" else "(" ++ String.intercalate " AND " queries ++ ")"
      .ok ("", typeHaving, { q' with Having := optQuery })
  | .groupBy cols, q =>
    if q.queryType ≠ OpSelect then .error ("cannot use group by in (" ++ q.queryType ++ ")")
    else if cols.length = 0 then .error "no columns specified for group by"
    else .ok ("", typeOrder, { q with group := cols })
  | .limit n, q =>
    if q.queryType ≠ OpSelect then .error ("cannot use limit in (" ++ q.queryType ++ ")")
    else if n < 0 then .error "limit cannot be less than 0"
    else .ok ("", typePagination, { q with limit := n })
  | .offset n, q =>
    if q.queryType ≠ OpSelect then .error ("cannot use offset in (" ++ q.queryType ++ ")")
    else if n < 0 then .error "offset cannot be less than 0"
    else .ok ("", typePagination, { q with offset := n })
  | .order field orderBy, q =>
    if q.queryType ≠ OpSelect then .error ("cannot use order in (" ++ q.queryType ++ ")")
    else if goToLower orderBy ≠ "asc" && goToLower orderBy ≠ "desc" then
      .error ("unknown order " ++ orderBy)
    else .ok ("", typeOrder, { q with order := q.order ++ ["\"" ++ field ++ "\" " ++ orderBy] })
  | .columns cols, q =>
    if q.queryType ≠ OpSelect then .error ("cannot use columns in (" ++ q.queryType ++ ")")
    else .ok ("", typeColumns, { q with Columns := cols })
  | .join condition cols, q =>
    if q.queryType ≠ OpSelect then .error ("cannot use join in (" ++ q.queryType ++ ")")
    else if condition = "" then .error "join condition cannot be empty"
    else .ok ("", typeJoin,
      { q with Joins := q.Joins ++ [{ Condition := condition, Columns := cols, TableName := "" }] })
termination_by structural o q => o

/-- The shared loop body of Go's `OR`/`AND` (and of `Having`, which calls
`AND`): evaluate each option in turn, rejecting any option that is not a
search (`typeQuery`) option, collecting the emitted fragments. -/
def evalWhereList (errMsg : String) : List QOpt → Query → Except String (List String × Query)
  | [], q => .ok ([], q)
  | o :: rest, q => do
    let (s, t, q') ← evalOpt o q
    if t ≠ typeQuery then .error errMsg
    else do
      let (ss, q'') ← evalWhereList errMsg rest q'
      .ok (s :: ss, q'')
termination_by structural l q => l

end

/-- The option-processing loop of `Build`: accumulates where fragments and the
query-all flag, skipping sentinel option types. -/
def buildLoop : List QOpt → Query × List String × Bool → Except String (Query × List String × Bool)
  | [], st => .ok st
  | o :: rest, (q, whereOpts, isQueryAll) => do
    let (s, t, q') ← evalOpt o q
    if t = typeQueryAll then buildLoop rest (q', whereOpts, true)
    else if t ≠ typeQuery then buildLoop rest (q', whereOpts, isQueryAll)
    else buildLoop rest (q', whereOpts ++ [s], isQueryAll)

/-- The WHERE / GROUP BY / HAVING / ORDER BY part of the fragment `Build`
assembles before the LIMIT and OFFSET clauses (these pieces do not read the
limit field, so hoisting them into a helper preserves the source order). -/
def buildFragBase (stmt : Query) (whereOpts : List String) : String :=
  let query := if whereOpts.length ≠ 0 then "WHERE " ++ String.intercalate " AND " whereOpts else ""
  let query :=
    if stmt.group.length ≠ 0 then query ++ " GROUP BY " ++ String.intercalate "," stmt.group ++ " "
    else query
  let query := if stmt.Having ≠ "" then query ++ " HAVING " ++ stmt.Having else query
  let query :=
    if stmt.order.length ≠ 0 then query ++ " ORDER BY " ++ String.intercalate ", " stmt.order
    else query
  query

/-- Build builds the sql query fragment from the given query options
(pgcq.Build). -/
def Build (opts : List QOpt) (queryType : String) (existingArgs : List String) :
    Except String Query := do
  let stmt0 : Query := { queryType := queryType, Args := existingArgs }
  let (stmt, whereOpts, isQueryAll) ← buildLoop opts (stmt0, [], false)
  let query := buildFragBase stmt whereOpts
  let stmt :=
    if stmt.limit = 0 && queryType = OpSelect && !isQueryAll then
      { stmt with limit := DefaultSelectLimit }
    else stmt
  let query := if stmt.limit ≠ 0 then query ++ " LIMIT " ++ toString stmt.limit else query
  let query := if stmt.offset ≠ 0 then query ++ " OFFSET " ++ toString stmt.offset else query
  .ok { stmt with QueryFrag := query, IsQueryAll := isQueryAll }

/-! ## Type model (the `model` / `field` code) -/

/-- The per-column data the field-selection and SQL-generation code reads
(column name and the position of the backing struct field). -/
structure Field where
  GoName : String
  PGName : String
  FieldPos : Nat
deriving Repr, DecidableEq

/-- The part of the cached type model the embedded operations consume.
`PKPos` is the struct-field position of the primary key, `-1` when absent,
exactly as in the Go code. -/
structure Model where
  TableName : String
  Fields : List Field
  PKName : String
  PKPos : Int
deriving Repr, DecidableEq

/-- The field-collecting loop of `model.getFields`: walking `mod.Fields` by
index, a field is kept when its index equals `PKPos` or its column name is
among the requested columns. -/
def selectLoop (pkPos : Int) (columns : List String) : Nat → List Field → List Field
  | _, [] => []
  | i, f :: rest =>
    if (i : Int) = pkPos then f :: selectLoop pkPos columns (i + 1) rest
    else if columns.contains f.PGName then f :: selectLoop pkPos columns (i + 1) rest
    else selectLoop pkPos columns (i + 1) rest

/-- Embeds `model.getFields`: with no columns requested, all fields; otherwise the
kept fields, with the Go panic on an unrecognized column modelled as an
error.  The panic fires only when the requested-column count differs from the
kept-field count, exactly as in the source. -/
def getFields (mod : Model) (columns : List String) : Except String (List Field) :=
  if columns.length = 0 then .ok mod.Fields
  else
    let fields := selectLoop mod.PKPos columns 0 mod.Fields
    if columns.length ≠ fields.length then
      match columns.find? (fun col => !(fields.any (fun f => f.PGName = col))) with
      | some col => .error ("unrecognized column (" ++ col ++ ")")
      | none => .ok fields
    else .ok fields

/-- Embeds `model.GetFieldsNoPK`: the selected fields with the primary-key column
filtered out. -/
def GetFieldsNoPK (mod : Model) (columns : List String) : Except String (List Field) := do
  let fields ← getFields mod columns
  .ok (fields.filter (fun f => f.PGName ≠ mod.PKName))

/-- A record instance: the string image of each struct field by position
(bind values are opaque to the engine). -/
def Record : Type := Nat → String

/-- Embeds `model.getVals`: the values of the given fields, in field order. -/
def getVals (rec : Record) (fields : List Field) : List String :=
  fields.map (fun f => rec f.FieldPos)

/-- Embeds `model.getPK`: the primary-key value; the Go panic when the model has no
primary key is modelled as an error. -/
def getPK (mod : Model) (rec : Record) : Except String String :=
  if mod.PKPos = -1 then .error ("Missing primary key for table (" ++ mod.TableName ++ ")")
  else .ok (rec mod.PKPos.toNat)

/-- Embeds `parseName`: derives the snake_cased column name from a camel-cased Go
identifier.  Faithful restatement of the rune loop (Go's `unicode.IsUpper` /
`unicode.ToLower` agree with `Char.isUpper` / `Char.toLower` on the ASCII
identifiers at hand). -/
def parseName (name : String) : String :=
  let runes := name.toList
  let n := runes.length
  let step : List Char × Nat × Bool → Nat → List Char × Nat × Bool := fun (buf, upperCount, _) i =>
    let c := runes.getD i ' '
    let isUpper := c.isUpper
    let buf := if i ≠ 0 && upperCount = 0 && isUpper then buf ++ ['_'] else buf
    if !isUpper then
      let buf :=
        if upperCount > 1 then
          buf ++ ((List.range (upperCount - 1)).map
            (fun j => (runes.getD (i - upperCount + j) ' ').toLower)) ++ ['_']
        else buf
      let buf := if upperCount > 0 then buf ++ [(runes.getD (i - 1) ' ').toLower] else buf
      (buf ++ [c], 0, isUpper)
    else
      (buf, upperCount + 1, isUpper)
  let res := (List.range n).foldl step ([], 0, false)
  let buf :=
    if res.2.2 then
      res.1 ++ ((List.range res.2.1).map (fun j => (runes.getD (n - res.2.1 + j) ' ').toLower))
    else res.1
  String.mk buf

/-! ## CRUD adapter operations -/

/-- The SQL statement and bound arguments an operation hands to the driver.
An adapter operation that returns an error instead never contacts the
database. -/
structure SQLCall where
  sql : String
  args : List String

/-- Embeds `strings.Replace(strings.Replace(str, ";", "", -1), "\"", "", -1)` of the
field-quoting helpers. -/
def trimName (s : String) : String :=
  String.mk ((s.toList.filter (fun c => c ≠ ';')).filter (fun c => c ≠ '\"'))

/-- Embeds `field.PGNameQuoted`. -/
def PGNameQuoted (f : Field) : String :=
  "\"" ++ trimName f.PGName ++ "\""

/-- The rendered `updateTemplate` SET clause (whitespace normalized):
`UPDATE "table" SET "c1" = $1, ..., "cN" = $N`. -/
def renderUpdateSet (mod : Model) (fields : List Field) : String :=
  "UPDATE \"" ++ mod.TableName ++ "\" SET " ++
    String.intercalate ", "
      ((List.range fields.length).zip fields |>.map
        (fun p => PGNameQuoted p.2 ++ " = $" ++ toString (p.1 + 1)))

/-- The rendered `deleteTemplate` (whitespace normalized). -/
def renderDelete (mod : Model) : String :=
  "DELETE FROM \"" ++ mod.TableName ++ "\""

/-- LimitInsert caps one multi-row insert. -/
def LimitInsert : Nat := 1000

/-- One item passed to Insert: its (parsed) model and the record value
(`row` is the Go `structPtr`). -/
structure Item where
  mod : Model
  row : Record

/-- The per-item loop of `crudAdapter.Insert`: reject an item whose table
differs from the first item's table, otherwise append its column values in
field order. -/
def insertLoop (table : String) : List Item → Except String (List String)
  | [] => .ok []
  | it :: rest =>
    if it.mod.TableName ≠ table then .error "cannot insert items from different tables"
    else do
      let args ← insertLoop table rest
      .ok (getVals it.row it.mod.Fields ++ args)

/-- The rendered `insertTemplate` head (whitespace normalized; the claims
never inspect the placeholder matrix, only the argument list). -/
def renderInsert (mod : Model) (itemCount : Nat) : String :=
  "INSERT INTO \"" ++ mod.TableName ++ "\" (" ++
    String.intercalate ", " (mod.Fields.map PGNameQuoted) ++ ") VALUES ... x" ++
    toString itemCount

/-- Embeds `crudAdapter.Insert`: at least one item, at most `LimitInsert`, all items
on the first item's table; the bound arguments are the concatenation of each
item's column values in field order. -/
def Insert (items : List Item) : Except String SQLCall :=
  if items.length = 0 then .error "nothing to insert"
  else if items.length > LimitInsert then
    .error ("insertion of more than (" ++ toString LimitInsert ++ ") items not allowed")
  else
    match items with
    | [] => .error "nothing to insert"
    | first :: _ => do
      let args ← insertLoop first.mod.TableName items
      .ok ⟨renderInsert first.mod items.length, args⟩

/-- Embeds `crudAdapter.Update`: update by primary key.  Columns are all fields
except the PK; the PK value is appended as the final argument `$(len(args))`.
The source performs no emptiness check on the PK value. -/
def Update (mod : Model) (rec : Record) : Except String SQLCall := do
  let fieldsNoPK ← GetFieldsNoPK mod []
  let pk ← getPK mod rec
  let args := getVals rec fieldsNoPK ++ [pk]
  .ok ⟨renderUpdateSet mod fieldsNoPK ++ " WHERE \"" ++ mod.PKName ++ "\" = $" ++
    toString args.length ++ ";", args⟩

/-- Embeds `crudAdapter.Delete`: delete by primary key; an empty PK value is
rejected before any SQL is built. -/
def Delete (mod : Model) (rec : Record) : Except String SQLCall := do
  let pkVal ← getPK mod rec
  if pkVal = "" then
    .error ("pgc cant delete from table (" ++ mod.TableName ++ "), ID/PK not set")
  else
    .ok ⟨renderDelete mod ++ " WHERE \"" ++ mod.PKName ++ "\" = $1", [pkVal]⟩

/-- Result of UpdateRows: the SET-clause fields, the final rendered SQL and
the bound arguments. -/
structure UpdateRowsResult where
  setFields : List Field
  sql : String
  args : List String

/-- Embeds `crudAdapter.UpdateRows`: non-empty column map and at least one option;
SET columns come from `GetFieldsNoPK` over the map's keys; the map values are
bound in field order and the option arguments follow; a built query that is
neither query-all nor contains `WHERE` is rejected. -/
def UpdateRows (mod : Model) (dataMap : List (String × String)) (opts : List QOpt) :
    Except String UpdateRowsResult :=
  if dataMap.length = 0 then .error "columns for update cannot be empty"
  else if opts.length = 0 then .error "query options cannot be empty"
  else do
    let columns := dataMap.map Prod.fst
    let fieldsNoPK ← GetFieldsNoPK mod columns
    let args := fieldsNoPK.filterMap (fun f => dataMap.lookup f.PGName)
    let stmt ← Build opts OpUpdate args
    if !stmt.IsQueryAll && !(goContains stmt.QueryFrag "WHERE") then
      .error "query options cannot be empty"
    else
      .ok ⟨fieldsNoPK, renderUpdateSet mod fieldsNoPK ++ " " ++ stmt.QueryFrag ++ ";", stmt.Args⟩

/-- Embeds `crudAdapter.DeleteRows`: delete by options; a built query that is
neither query-all nor contains `WHERE` is rejected. -/
def DeleteRows (mod : Model) (opts : List QOpt) : Except String SQLCall := do
  let stmt ← Build opts OpDelete []
  if !stmt.IsQueryAll && !(goContains stmt.QueryFrag "WHERE") then
    .error "query options cannot be empty"
  else
    .ok ⟨renderDelete mod ++ " " ++ stmt.QueryFrag ++ ";", stmt.Args⟩

/-! ## Error-classification predicates (ops.go) -/

def PGECTableDNE : String := "42P01"

def PGECTableExists : String := "42P07"

def PGECUniqueViolation : String := "23505"

/-- A Go `error` value: `none` is the nil error, `some msg` an error whose
`Error()` string is `msg`. -/
abbrev GoError : Type := Option String

/-- IsUniqueViolationError checks whether an error is a unique-constraint
violation error. -/
def IsUniqueViolationError : GoError → Bool
  | none => false
  | some msg => goContains msg ("SQLSTATE " ++ PGECUniqueViolation)

/-- IsTableExistsError checks whether an error is a table-already-exists
error. -/
def IsTableExistsError : GoError → Bool
  | none => false
  | some msg => goContains msg PGECTableExists

/-! ## Migration engine -/

/-- DefaultVersion keeps the default schema that is not executed unless
explicitly requested. -/
def DefaultVersion : String := "0000-00-00:00:00:00"

/-- In-memory registered migration. -/
structure Migration where
  upSQL : String
  downSQL : String
  isDefault : Bool
deriving Repr, DecidableEq

/-- Embeds `MigrationHandler.RegisterMigration` invariant: a registry is an
association list with distinct version keys whose `isDefault` flag records
whether the version is the reserved default literal. -/
def Registered (migrations : List (String × Migration)) : Prop :=
  (migrations.map Prod.fst).Nodup ∧
    ∀ p ∈ migrations, p.2.isDefault = decide (p.1 = DefaultVersion)

/-- Embeds `MigrationHandler.MigrationVersions`: the registered versions in sorted
(lexicographic) order. -/
def MigrationVersions (migrations : List (String × Migration)) : List String :=
  List.insertionSort (· ≤ ·) (migrations.map Prod.fst)

/-- The observable outcome of an UpdateSchema run: versions applied (in
order), SchemaMigration rows inserted, and up-SQL statements executed. -/
structure MigState where
  applied : List String
  schemaRows : List String
  execed : List String
deriving Repr, DecidableEq

/-- The version loop of `UpdateSchema`: skip versions already present in the
bookkeeping table, fail on a missing version with empty up SQL, skip the
default version unless `execDefault`, otherwise execute the up SQL and insert
the SchemaMigration row (the transaction always commits in this pure model,
so effects are recorded directly). -/
def updateLoop (migrations : List (String × Migration)) (existing : List String)
    (execDefault : Bool) : List String → MigState → Except String MigState
  | [], st => .ok st
  | v :: rest, st =>
    match migrations.lookup v with
    | none => updateLoop migrations existing execDefault rest st
    | some m =>
      if existing.contains v then updateLoop migrations existing execDefault rest st
      else if m.upSQL = "" then .error ("migration (" ++ v ++ "): up function not defined")
      else if m.isDefault && !execDefault then updateLoop migrations existing execDefault rest st
      else updateLoop migrations existing execDefault rest
        ⟨st.applied ++ [v], st.schemaRows ++ [v], st.execed ++ [m.upSQL]⟩

/-- Embeds `UpdateSchema execDefault`: run the version loop over the sorted
registered versions against the versions already in the bookkeeping table. -/
def UpdateSchema (migrations : List (String × Migration)) (existing : List String)
    (execDefault : Bool) : Except String MigState :=
  updateLoop migrations existing execDefault (MigrationVersions migrations) ⟨[], [], []⟩

/-! ## Syntactic classifiers over option lists (used to state claims) -/

/-- Whether an option is the `All()` option. -/
def isAllOpt : QOpt → Bool
  | .all => true
  | _ => false

/-- Whether an option is an explicit `Limit(n)` option. -/
def isLimitOpt : QOpt → Bool
  | .limit _ => true
  | _ => false

/-- The value of the last `Limit` option in a list, if any (later limits win,
as documented on `Limit`). -/
def lastLimit : List QOpt → Option Int
  | [] => none
  | .limit n :: rest =>
    match lastLimit rest with
    | some m => some m
    | none => some n
  | _ :: rest => lastLimit rest

/-- The classifier code each option reports on success (`OR`/`AND` report 0
on an empty composition, `typeQuery` otherwise). -/
def optTypeOf : QOpt → Nat
  | .orOpt opts => if opts.length = 0 then 0 else typeQuery
  | .andOpt opts => if opts.length = 0 then 0 else typeQuery
  | .all => typeQueryAll
  | .having _ => typeHaving
  | .groupBy _ => typeOrder
  | .limit _ => typePagination
  | .offset _ => typePagination
  | .order _ _ => typeOrder
  | .columns _ => typeColumns
  | .join _ _ => typeJoin
  | _ => typeQuery

/-- The limit an option leaves in the query state, given the previous one. -/
def limitOf (o : QOpt) (d : Int) : Int :=
  match o with
  | .limit n => n
  | _ => d

/-- The offset an option leaves in the query state, given the previous one. -/
def offsetOf (o : QOpt) (d : Int) : Int :=
  match o with
  | .offset n => n
  | _ => d

/-- A small concrete type model used to instantiate theorems: a `users` table
with string PK `id` and columns `name`, `descr` (field order = declaration
order, PK at struct position 0). -/
def usersModel : Model :=
  ⟨"users", [⟨"ID", "id", 0⟩, ⟨"Name", "name", 1⟩, ⟨"Descr", "descr", 2⟩], "id", 0⟩

/-! ## Helper lemmas -/

theorem listContains_iff (pat : List Char) : ∀ l, listContains pat l = true ↔ pat <:+: l := by
  intro l
  induction l with
  | nil =>
    simp [listContains, List.isPrefixOf_iff_prefix]
  | cons c rest ih =>
    simp only [listContains, Bool.or_eq_true, List.isPrefixOf_iff_prefix, ih,
      List.infix_cons_iff]

/-! ## C7: parseName -/

/-- C7: the column-name derivation `parseName` maps `ID` to `id`, `URL` to
`url`, `MyJSONString` to `my_json_string`, `MyStringJSON` to
`my_string_json`, and `MyCamelCasedName` to `my_camel_cased_name`, splitting
camel case before single uppercase transitions and after runs of capitals. -/
theorem parseName_spec :
    parseName "ID" = "id" ∧ parseName "URL" = "url" ∧
    parseName "MyJSONString" = "my_json_string" ∧
    parseName "MyStringJSON" = "my_string_json" ∧
    parseName "MyCamelCasedName" = "my_camel_cased_name" :=
  ⟨rfl, rfl, rfl, rfl, rfl⟩

/-! ## C9: error-classification predicates -/

/-- C9: on the nil error both predicates return false; on a non-nil error
`IsUniqueViolationError` is true exactly when the message contains
`SQLSTATE 23505`, and `IsTableExistsError` exactly when the message contains
`42P07`. -/
theorem errorPredicates_spec :
    IsUniqueViolationError none = false ∧ IsTableExistsError none = false ∧
    (∀ msg : String, IsUniqueViolationError (some msg) = true ↔
      ("SQLSTATE " ++ PGECUniqueViolation).toList <:+: msg.toList) ∧
    (∀ msg : String, IsTableExistsError (some msg) = true ↔
      PGECTableExists.toList <:+: msg.toList) := by
  refine ⟨rfl, rfl, fun msg => ?_, fun msg => ?_⟩ <;>
    simp [IsUniqueViolationError, IsTableExistsError, goContains, listContains_iff]

/-! ## C2: empty primary key on Update / Delete -/

/-- C2 counterexample: on a record whose PK value is the empty string,
`Update` does not fail; it builds and would execute the UPDATE statement,
binding the empty PK as the last argument (the claim says it fails with an
error and executes no SQL). -/
theorem update_emptyPK_executes :
    Update usersModel (fun _ => "") =
      .ok ⟨"UPDATE \"users\" SET \"name\" = $1, \"descr\" = $2 WHERE \"id\" = $3;",
        ["", "", ""]⟩ := by
  with_unfolding_all rfl

/-- C2 amended: with an empty PK value, `Delete` fails with an error (and so
executes no SQL), while `Update` performs no empty-PK check: it succeeds,
producing the UPDATE call over all non-PK columns with the empty PK bound as
the final argument. -/
theorem update_delete_emptyPK (mod : Model) (rec : Record)
    (hpk : mod.PKPos ≠ -1) (hempty : rec mod.PKPos.toNat = "") :
    Delete mod rec =
      .error ("pgc cant delete from table (" ++ mod.TableName ++ "), ID/PK not set") ∧
    Update mod rec =
      .ok ⟨renderUpdateSet mod (mod.Fields.filter (fun f => f.PGName ≠ mod.PKName)) ++
            " WHERE \"" ++ mod.PKName ++ "\" = $" ++
            toString ((mod.Fields.filter (fun f => f.PGName ≠ mod.PKName)).length + 1) ++ ";",
          getVals rec (mod.Fields.filter (fun f => f.PGName ≠ mod.PKName)) ++ [""]⟩ := by
  constructor
  · simp only [Delete, getPK, hpk, hempty, if_neg, if_false]
    rfl
  · simp only [Update, GetFieldsNoPK, getFields, getPK, hpk, hempty, if_neg, if_false,
      List.length_nil, ite_true, Except.bind, bind, getVals, List.length_append,
      List.length_map, List.length_cons]

theorem update_delete_emptyPK_witness :
    usersModel.PKPos ≠ -1 ∧
    Delete usersModel (fun _ => "") =
      .error "pgc cant delete from table (users), ID/PK not set" := by
  have h := update_delete_emptyPK usersModel (fun _ => "") (by decide) rfl
  exact ⟨by decide, h.1⟩

/-! ## C4: OR / AND / IN composition -/

/-- C4: building `OR(Equal("name","blog4"), AND(Equal("descr","descr3"),
IN("id", id1, id2)))` for a SELECT emits the WHERE fragment
`("name" = $1 OR ("descr" = $2 AND "id" IN ($3,$4)))` with positional
arguments `["blog4","descr3",id1,id2]`, for all values id1, id2 (`Build`
prefixes `WHERE ` and appends the default select limit). -/
theorem or_and_in_build (id1 id2 : String) :
    evalOpt
        (.orOpt [.equal "name" "blog4",
          .andOpt [.equal "descr" "descr3", .inOpt "id" [id1, id2]]])
        { queryType := OpSelect } =
      .ok ("(\"name\" = $1 OR (\"descr\" = $2 AND \"id\" IN ($3,$4)))", typeQuery,
        { queryType := OpSelect, Args := ["blog4", "descr3", id1, id2] }) ∧
    Build
        [.orOpt [.equal "name" "blog4",
          .andOpt [.equal "descr" "descr3", .inOpt "id" [id1, id2]]]]
        OpSelect [] =
      .ok { queryType := OpSelect, Args := ["blog4", "descr3", id1, id2], limit := 1000,
            QueryFrag := "WHERE (\"name\" = $1 OR (\"descr\" = $2 AND \"id\" IN ($3,$4))) LIMIT 1000" } :=
  ⟨by with_unfolding_all rfl, by with_unfolding_all rfl⟩

/-! ## C10: Columns with zero names -/

/-- C10: `Columns()` with zero names is accepted on a SELECT (it stores the
empty column list without error), and field selection with an empty column
list returns every field of the type model in declaration order. -/
theorem columns_empty_fetches_all :
    (∀ q : Query, q.queryType = OpSelect →
      evalOpt (.columns []) q = .ok ("", typeColumns, { q with Columns := [] })) ∧
    (∀ mod : Model, getFields mod [] = .ok mod.Fields) := by
  constructor
  · intro q hq
    simp [evalOpt, hq]
  · intro mod
    simp [getFields]

theorem columns_empty_fetches_all_witness :
    evalOpt (.columns []) { queryType := OpSelect } =
      .ok ("", typeColumns, { queryType := OpSelect }) ∧
    getFields usersModel [] = .ok usersModel.Fields :=
  ⟨columns_empty_fetches_all.1 { queryType := OpSelect } rfl,
    columns_empty_fetches_all.2 usersModel⟩

/-! ## C5: multi-row Insert -/

theorem insertLoop_ok (table : String) :
    ∀ items : List Item, (∀ it ∈ items, it.mod.TableName = table) →
      insertLoop table items =
        .ok ((items.map (fun it => getVals it.row it.mod.Fields)).flatten) := by
  intro items
  induction items with
  | nil => intro _; simp [insertLoop]
  | cons it rest ih =>
    intro h
    have hit : it.mod.TableName = table := h it (List.mem_cons_self it rest)
    have hrest := ih (fun x hx => h x (List.mem_cons_of_mem it hx))
    simp [insertLoop, hit, hrest, bind, Except.bind]

theorem insertLoop_err (table : String) :
    ∀ items : List Item, (∃ it ∈ items, it.mod.TableName ≠ table) →
      insertLoop table items = .error "cannot insert items from different tables" := by
  intro items
  induction items with
  | nil => rintro ⟨it, h, _⟩; cases h
  | cons it rest ih =>
    rintro ⟨x, hx, hneq⟩
    by_cases hit : it.mod.TableName = table
    · rcases List.mem_cons.mp hx with heq | hmem
      · subst heq; exact absurd hit hneq
      · have hrest := ih ⟨x, hmem, hneq⟩
        simp [insertLoop, hit, hrest, bind, Except.bind]
    · simp [insertLoop, hit]

/-- C5: `Insert` rejects zero items, rejects more than 1000 items, rejects
items on different tables (all before any SQL call is produced), and
otherwise binds the concatenation of each item's column values in field
order. -/
theorem insert_spec (items : List Item) :
    (items.length = 0 → Insert items = .error "nothing to insert") ∧
    (items.length > LimitInsert →
      Insert items =
        .error ("insertion of more than (" ++ toString LimitInsert ++ ") items not allowed")) ∧
    (∀ first rest, items = first :: rest → items.length ≤ LimitInsert →
      ((∀ it ∈ items, it.mod.TableName = first.mod.TableName) →
        Insert items = .ok ⟨renderInsert first.mod items.length,
          (items.map (fun it => getVals it.row it.mod.Fields)).flatten⟩) ∧
      ((∃ it ∈ items, it.mod.TableName ≠ first.mod.TableName) →
        Insert items = .error "cannot insert items from different tables")) := by
  refine ⟨?_, ?_, ?_⟩
  · intro h
    simp [Insert, h]
  · intro h
    have h0 : items.length ≠ 0 := by omega
    simp [Insert, h0, h]
  · intro first rest heq hle
    subst heq
    have h0 : (first :: rest).length ≠ 0 := by simp
    have h1 : ¬ (first :: rest).length > LimitInsert := by omega
    constructor
    · intro hall
      have hloop := insertLoop_ok first.mod.TableName (first :: rest) hall
      simp [Insert, h0, h1, hloop, bind, Except.bind]
      simpa using hle
    · intro hex
      have hloop := insertLoop_err first.mod.TableName (first :: rest) hex
      simp only [Insert]
      rw [if_neg h0, if_neg h1]
      simp [hloop, bind, Except.bind]

theorem insert_spec_witness :
    ([⟨usersModel, fun i => toString i⟩, ⟨usersModel, fun i => toString (10 + i)⟩] :
        List Item).length ≤ LimitInsert ∧
    Insert [⟨usersModel, fun i => toString i⟩, ⟨usersModel, fun i => toString (10 + i)⟩] =
      .ok ⟨renderInsert usersModel 2, ["0", "1", "2", "10", "11", "12"]⟩ := by
  have h :=
    ((insert_spec [⟨usersModel, fun i => toString i⟩,
        ⟨usersModel, fun i => toString (10 + i)⟩]).2.2
      ⟨usersModel, fun i => toString i⟩ [⟨usersModel, fun i => toString (10 + i)⟩] rfl
      (by decide)).1 (by intro it hit; fin_cases hit <;> rfl)
  refine ⟨by decide, h.trans ?_⟩
  with_unfolding_all rfl

/-! ## Field-selection lemmas (model.getFields) -/

theorem selectLoop_subset (pk : Int) (cols : List String) :
    ∀ (fields : List Field) (i : Nat) (f : Field),
      f ∈ selectLoop pk cols i fields → f ∈ fields := by
  intro fields
  induction fields with
  | nil => intro i f h; simp [selectLoop] at h
  | cons g rest ih =>
    intro i f h
    simp only [selectLoop] at h
    split at h
    · rcases List.mem_cons.mp h with h | h
      · exact h ▸ List.mem_cons_self g rest
      · exact List.mem_cons_of_mem g (ih (i + 1) f h)
    · split at h
      · rcases List.mem_cons.mp h with h | h
        · exact h ▸ List.mem_cons_self g rest
        · exact List.mem_cons_of_mem g (ih (i + 1) f h)
      · exact List.mem_cons_of_mem g (ih (i + 1) f h)

theorem mem_selectLoop_of_name (pk : Int) (cols : List String) :
    ∀ (fields : List Field) (i : Nat) (f : Field),
      f ∈ fields → f.PGName ∈ cols → f ∈ selectLoop pk cols i fields := by
  intro fields
  induction fields with
  | nil => intro i f h; simp at h
  | cons g rest ih =>
    intro i f hmem hname
    have hcont : cols.contains f.PGName = true := by
      simpa using hname
    rcases List.mem_cons.mp hmem with heq | hmem'
    · subst heq
      simp only [selectLoop, hcont, if_true]
      split
      · exact List.mem_cons_self f _
      · exact List.mem_cons_self f _
    · have := ih (i + 1) f hmem' hname
      simp only [selectLoop]
      split
      · exact List.mem_cons_of_mem g this
      · split
        · exact List.mem_cons_of_mem g this
        · exact this

theorem selectLoop_eq_enumFrom (pk : Int) (cols : List String) :
    ∀ (fields : List Field) (i : Nat),
      selectLoop pk cols i fields =
        ((List.enumFrom i fields).filter
          (fun p => decide ((p.1 : Int) = pk) || cols.contains p.2.PGName)).map Prod.snd := by
  intro fields
  induction fields with
  | nil => intro i; simp [selectLoop]
  | cons g rest ih =>
    intro i
    have henum : List.enumFrom i (g :: rest) = (i, g) :: List.enumFrom (i + 1) rest := rfl
    rw [henum, List.filter_cons]
    by_cases hpk : (i : Int) = pk
    · have hcond : (decide ((i : Int) = pk) || cols.contains g.PGName) = true := by
        simp only [Bool.or_eq_true]
        exact Or.inl (decide_eq_true hpk)
      rw [if_pos hcond, List.map_cons, ← ih]
      simp [selectLoop, hpk]
    · by_cases hc : cols.contains g.PGName = true
      · have hcond : (decide ((i : Int) = pk) || cols.contains g.PGName) = true := by
          simp only [Bool.or_eq_true]
          exact Or.inr hc
        rw [if_pos hcond, List.map_cons, ← ih]
        simp only [selectLoop, if_neg hpk]
        rw [if_pos hc]
      · have hcond : ¬ ((decide ((i : Int) = pk) || cols.contains g.PGName) = true) := by
          simp only [Bool.or_eq_true]
          rintro (h | h)
          · exact hpk (of_decide_eq_true h)
          · exact hc h
        rw [if_neg hcond, ← ih]
        simp only [selectLoop, if_neg hpk]
        rw [if_neg hc]

/-- The panic condition of `getFields`, in type-model terms: on a non-empty
column list it fails exactly when the requested-column count differs from the
kept-field count and some requested column exists nowhere on the model. -/
theorem getFields_error_iff (mod : Model) (columns : List String) (hne : columns ≠ []) :
    (∃ e, getFields mod columns = .error e) ↔
      (columns.length ≠ (selectLoop mod.PKPos columns 0 mod.Fields).length ∧
        ∃ col ∈ columns, ∀ f ∈ mod.Fields, f.PGName ≠ col) := by
  have hlen : ¬ columns.length = 0 := by
    simpa [List.length_eq_zero] using hne
  simp only [getFields, if_neg hlen]
  by_cases hmis : columns.length ≠ (selectLoop mod.PKPos columns 0 mod.Fields).length
  · simp only [if_pos hmis]
    cases hfind : columns.find?
        (fun col => !(selectLoop mod.PKPos columns 0 mod.Fields).any
          (fun f => f.PGName = col)) with
    | none =>
      simp only [hfind]
      constructor
      · rintro ⟨e, he⟩; cases he
      · rintro ⟨-, col, hcol, hunk⟩
        have hp := List.find?_eq_none.mp hfind col hcol
        simp only [Bool.not_eq_true, Bool.not_eq_false', List.any_eq_true,
          decide_eq_true_eq] at hp
        obtain ⟨f, hf, hfname⟩ := hp
        exact absurd hfname
          (hunk f (selectLoop_subset mod.PKPos columns mod.Fields 0 f hf))
    | some col =>
      simp only [hfind]
      refine ⟨fun _ => ⟨hmis, col, List.mem_of_find?_eq_some hfind, ?_⟩,
        fun _ => ⟨_, rfl⟩⟩
      have hp := List.find?_some hfind
      simp only [Bool.not_eq_true', List.any_eq_false, decide_eq_true_eq] at hp
      intro f hf hname
      exact hp f (mem_selectLoop_of_name mod.PKPos columns mod.Fields 0 f hf
        (hname ▸ List.mem_of_find?_eq_some hfind)) hname
  · simp only [if_neg hmis]
    constructor
    · rintro ⟨e, he⟩; cases he
    · rintro ⟨h, -⟩; exact absurd h hmis

/-- On a non-empty column list, a successful `getFields` returns exactly the
kept-field loop result. -/
theorem getFields_ok_eq (mod : Model) (columns : List String) (hne : columns ≠ [])
    (fs : List Field) (h : getFields mod columns = .ok fs) :
    fs = selectLoop mod.PKPos columns 0 mod.Fields := by
  have hlen : ¬ columns.length = 0 := by
    simpa [List.length_eq_zero] using hne
  simp only [getFields, if_neg hlen] at h
  by_cases hmis : columns.length ≠ (selectLoop mod.PKPos columns 0 mod.Fields).length
  · rw [if_pos hmis] at h
    cases hfind : columns.find?
        (fun col => !(selectLoop mod.PKPos columns 0 mod.Fields).any
          (fun f => f.PGName = col)) with
    | none => rw [hfind] at h; exact (Except.ok.injEq _ _ ▸ h).symm
    | some col => rw [hfind] at h; cases h
  · rw [if_neg hmis] at h
    exact (Except.ok.injEq _ _ ▸ h).symm

/-! ## C6: projection via Columns(...) -/

/-- C6 counterexample: `Columns("name","unknown")` on the users model, where
`unknown` names no column of the type model, does NOT end in a fatal error:
`getFields` silently ignores the unknown column and returns the PK plus
`name` (the claim says any unknown named column is a fatal error). -/
theorem columns_unknown_silently_ignored :
    (usersModel.Fields.map (fun f => f.PGName)).contains "unknown" = false ∧
    getFields usersModel ["name", "unknown"] =
      .ok [⟨"ID", "id", 0⟩, ⟨"Name", "name", 1⟩] :=
  ⟨by decide, by with_unfolding_all rfl⟩

/-- C6 amended: for a non-empty `Columns(...)` list, the fields fetched are
the field at the PK position (always retained) plus exactly those named
columns that exist on the type model, in type-model field order; an unknown
named column is a fatal error exactly when the named-column count differs
from the kept-field count (e.g. when the PK is also named, or at least two
named columns are unknown) — otherwise it is silently ignored. -/
theorem getFields_projection (mod : Model) (columns : List String) (hne : columns ≠ []) :
    (∀ fs, getFields mod columns = .ok fs →
      fs = ((mod.Fields.enum.filter
        (fun p => decide ((p.1 : Int) = mod.PKPos) || columns.contains p.2.PGName)).map
          Prod.snd)) ∧
    ((∃ e, getFields mod columns = .error e) ↔
      (columns.length ≠ (selectLoop mod.PKPos columns 0 mod.Fields).length ∧
        ∃ col ∈ columns, ∀ f ∈ mod.Fields, f.PGName ≠ col)) := by
  constructor
  · intro fs h
    rw [getFields_ok_eq mod columns hne fs h, selectLoop_eq_enumFrom]
    rfl
  · exact getFields_error_iff mod columns hne

theorem getFields_projection_witness :
    getFields usersModel ["some column", "id"] =
      .error "unrecognized column (some column)" ∧
    ([⟨"ID", "id", 0⟩, ⟨"Name", "name", 1⟩] : List Field) =
      ((usersModel.Fields.enum.filter
        (fun p => decide ((p.1 : Int) = usersModel.PKPos) ||
          ["id", "name"].contains p.2.PGName)).map Prod.snd) := by
  constructor
  · with_unfolding_all rfl
  · exact (getFields_projection usersModel ["id", "name"] (by decide)).1
      [⟨"ID", "id", 0⟩, ⟨"Name", "name", 1⟩] (by with_unfolding_all rfl)

/-! ## C1: UpdateRows -/

/-- C1 counterexample: an UpdateRows map whose two keys are both absent from
the type model is not dropped silently — it ends in the fatal
`unrecognized column` error even though `All()` was passed (the claim says
absent columns are dropped with no error). -/
theorem updateRows_unknown_columns_panic :
    (usersModel.Fields.map (fun f => f.PGName)).contains "bogus1" = false ∧
    (usersModel.Fields.map (fun f => f.PGName)).contains "bogus2" = false ∧
    UpdateRows usersModel [("bogus1", "v1"), ("bogus2", "v2")] [.all] =
      .error "unrecognized column (bogus1)" :=
  ⟨by decide, by decide, by with_unfolding_all rfl⟩

/-- C1 amended: map keys absent from the type model produce no SET clause (a
successful UpdateRows sets exactly the non-PK model fields named by the map,
in field order), but they are dropped silently only when the key count
matches the kept-field count; when the counts differ and some key names no
model column, UpdateRows ends in the fatal `unrecognized column` error.  A
built query without `WHERE` and without `All()` is rejected with an error, as
claimed. -/
theorem updateRows_spec (mod : Model) (dataMap : List (String × String)) (opts : List QOpt) :
    (∀ res, UpdateRows mod dataMap opts = .ok res →
      res.setFields =
        (selectLoop mod.PKPos (dataMap.map Prod.fst) 0 mod.Fields).filter
          (fun f => f.PGName ≠ mod.PKName) ∧
      ∀ f ∈ res.setFields, f ∈ mod.Fields ∧ f.PGName ≠ mod.PKName) ∧
    (dataMap ≠ [] → opts ≠ [] →
      (dataMap.map Prod.fst).length ≠
          (selectLoop mod.PKPos (dataMap.map Prod.fst) 0 mod.Fields).length →
      (∃ col ∈ dataMap.map Prod.fst, ∀ f ∈ mod.Fields, f.PGName ≠ col) →
      ∃ e, UpdateRows mod dataMap opts = .error e) ∧
    (∀ fs stmt, dataMap ≠ [] → opts ≠ [] →
      GetFieldsNoPK mod (dataMap.map Prod.fst) = .ok fs →
      Build opts OpUpdate (fs.filterMap (fun f => dataMap.lookup f.PGName)) = .ok stmt →
      stmt.IsQueryAll = false → goContains stmt.QueryFrag "WHERE" = false →
      UpdateRows mod dataMap opts = .error "query options cannot be empty") := by
  refine ⟨?_, ?_, ?_⟩
  · intro res h
    by_cases hd : dataMap.length = 0
    · simp [UpdateRows, hd] at h
    by_cases ho : opts.length = 0
    · simp [UpdateRows, hd, ho] at h
    have hcols : dataMap.map Prod.fst ≠ [] := by
      intro hnil
      exact hd (by simpa using congrArg List.length hnil)
    simp only [UpdateRows, if_neg hd, if_neg ho, bind, Except.bind] at h
    split at h
    · cases h
    · rename_i fs hget
      have hfs : fs = (selectLoop mod.PKPos (dataMap.map Prod.fst) 0 mod.Fields).filter
          (fun f => decide (f.PGName ≠ mod.PKName)) := by
        simp only [GetFieldsNoPK, bind, Except.bind] at hget
        split at hget
        · cases hget
        · rename_i gs hgf
          cases hget
          rw [getFields_ok_eq mod (dataMap.map Prod.fst) hcols gs hgf]
      split at h
      · cases h
      · rename_i stmt hbuild
        split at h
        · cases h
        · cases h
          refine ⟨hfs, ?_⟩
          intro f hf
          rw [hfs] at hf
          have hmem := List.mem_of_mem_filter hf
          have hname := List.of_mem_filter hf
          exact ⟨selectLoop_subset mod.PKPos (dataMap.map Prod.fst) mod.Fields 0 f hmem,
            by simpa using hname⟩
  · intro hd ho hmis hunk
    have hdl : ¬ dataMap.length = 0 := by
      simpa [List.length_eq_zero] using hd
    have hol : ¬ opts.length = 0 := by
      simpa [List.length_eq_zero] using ho
    have hcols : dataMap.map Prod.fst ≠ [] := by
      simpa [List.map_eq_nil_iff] using hd
    obtain ⟨e, he⟩ := (getFields_error_iff mod (dataMap.map Prod.fst) hcols).mpr ⟨hmis, hunk⟩
    refine ⟨e, ?_⟩
    simp [UpdateRows, hdl, hol, GetFieldsNoPK, he, bind, Except.bind]
  · intro fs stmt hd ho hget hbuild hall hwhere
    have hdl : ¬ dataMap.length = 0 := by
      simpa [List.length_eq_zero] using hd
    have hol : ¬ opts.length = 0 := by
      simpa [List.length_eq_zero] using ho
    simp only [UpdateRows, if_neg hdl, if_neg hol, hget, hbuild, bind, Except.bind]
    rw [if_pos]
    simp [hall, hwhere]

theorem updateRows_spec_witness :
    UpdateRows usersModel [("name", "v")] [.orOpt []] =
      .error "query options cannot be empty" := by
  refine (updateRows_spec usersModel [("name", "v")] [.orOpt []]).2.2
    [⟨"Name", "name", 1⟩] _ (by decide) (List.cons_ne_nil _ _)
    (by with_unfolding_all rfl) (by with_unfolding_all rfl) ?_ ?_
  · with_unfolding_all rfl
  · with_unfolding_all rfl

/-! ## C8: UpdateSchema -/

theorem lookup_eq_of_mem :
    ∀ (l : List (String × Migration)), (l.map Prod.fst).Nodup →
      ∀ k m, (k, m) ∈ l → l.lookup k = some m := by
  intro l
  induction l with
  | nil => intro _ k m h; cases h
  | cons p rest ih =>
    intro hnd k m hmem
    obtain ⟨k', m'⟩ := p
    rw [List.map_cons] at hnd
    have hnd' := List.nodup_cons.mp hnd
    rcases List.mem_cons.mp hmem with heq | hmem'
    · obtain ⟨hk, hm⟩ := Prod.mk.injEq k m k' m' ▸ heq
      subst hk
      subst hm
      simp [List.lookup]
    · have hk : (k == k') = false := by
        have hne : k ≠ k' := by
          intro hkk
          have hmap : k ∈ List.map Prod.fst rest := List.mem_map_of_mem Prod.fst hmem'
          rw [hkk] at hmap
          exact hnd'.1 hmap
        simpa using hne
      simp only [List.lookup, hk]
      exact ih hnd'.2 k m hmem'

theorem mem_of_lookup_eq_some :
    ∀ (l : List (String × Migration)) (k : String) (m : Migration),
      l.lookup k = some m → (k, m) ∈ l := by
  intro l
  induction l with
  | nil => intro k m h; cases h
  | cons p rest ih =>
    intro k m h
    cases p with
    | mk k' m' =>
      rw [List.lookup] at h
      by_cases hk : (k == k') = true
      · rw [hk] at h
        cases h
        exact (eq_of_beq hk) ▸ List.mem_cons_self _ _
      · rw [Bool.not_eq_true] at hk
        rw [hk] at h
        exact List.mem_cons_of_mem _ (ih k m h)

/-- Observable facts about a successful run of the version loop: the newly
applied versions are a subsequence of the visited list, none was already
present, the default version is never among them unless requested, and
SchemaMigration rows track applied versions one for one. -/
theorem updateLoop_ok_props (migs : List (String × Migration)) (existing : List String)
    (execDefault : Bool)
    (hreg : ∀ p ∈ migs, p.2.isDefault = decide (p.1 = DefaultVersion)) :
    ∀ (l : List String) (st st' : MigState),
      updateLoop migs existing execDefault l st = .ok st' →
      ∃ newly, st'.applied = st.applied ++ newly ∧ st'.schemaRows = st.schemaRows ++ newly ∧
        List.Sublist newly l ∧
        (∀ v ∈ newly, v ∉ existing ∧ (execDefault = false → v ≠ DefaultVersion)) := by
  intro l
  induction l with
  | nil =>
    intro st st' h
    cases h
    exact ⟨[], by simp, by simp, List.nil_sublist [], by simp⟩
  | cons v rest ih =>
    intro st st' h
    rw [updateLoop] at h
    cases hlook : migs.lookup v with
    | none =>
      simp only [hlook] at h
      obtain ⟨newly, h1, h2, h3, h4⟩ := ih st st' h
      exact ⟨newly, h1, h2, h3.cons v, h4⟩
    | some m =>
      simp only [hlook] at h
      by_cases hcont : existing.contains v = true
      · rw [if_pos hcont] at h
        obtain ⟨newly, h1, h2, h3, h4⟩ := ih st st' h
        exact ⟨newly, h1, h2, h3.cons v, h4⟩
      · rw [if_neg hcont] at h
        by_cases hup : m.upSQL = ""
        · rw [if_pos hup] at h
          cases h
        · rw [if_neg hup] at h
          by_cases hdef : (m.isDefault && !execDefault) = true
          · rw [if_pos hdef] at h
            obtain ⟨newly, h1, h2, h3, h4⟩ := ih st st' h
            exact ⟨newly, h1, h2, h3.cons v, h4⟩
          · rw [if_neg hdef] at h
            obtain ⟨newly, h1, h2, h3, h4⟩ := ih _ st' h
            refine ⟨v :: newly, by simpa using h1, by simpa using h2, h3.cons₂ v, ?_⟩
            intro w hw
            rcases List.mem_cons.mp hw with heq | hmem
            · subst heq
              refine ⟨by simpa using hcont, ?_⟩
              intro hexec hvdef
              apply hdef
              have hm := hreg (w, m) (mem_of_lookup_eq_some migs w m hlook)
              simp only at hm
              rw [hm, hexec, hvdef]
              simp
            · exact h4 w hmem

/-- A registered version that is missing from the bookkeeping table and has
empty up SQL always makes the loop fail. -/
theorem updateLoop_error (migs : List (String × Migration)) (existing : List String)
    (execDefault : Bool) :
    ∀ (l : List String) (st : MigState) (v : String) (m : Migration),
      v ∈ l → migs.lookup v = some m → m.upSQL = "" → v ∉ existing →
      ∃ e, updateLoop migs existing execDefault l st = .error e := by
  intro l
  induction l with
  | nil => intro st v m hv; cases hv
  | cons w rest ih =>
    intro st v m hv hlook hup hex
    rw [updateLoop]
    rcases List.mem_cons.mp hv with heq | hmem
    · subst heq
      simp only [hlook]
      have hcont : ¬ existing.contains v = true := by
        simpa using hex
      rw [if_neg hcont, if_pos hup]
      exact ⟨_, rfl⟩
    · cases hlook' : migs.lookup w with
      | none =>
        simp only [hlook']
        exact ih st v m hmem hlook hup hex
      | some m' =>
        simp only [hlook']
        by_cases hcont : existing.contains w = true
        · rw [if_pos hcont]
          exact ih st v m hmem hlook hup hex
        · rw [if_neg hcont]
          by_cases hup' : m'.upSQL = ""
          · rw [if_pos hup']
            exact ⟨_, rfl⟩
          · rw [if_neg hup']
            by_cases hdef : (m'.isDefault && !execDefault) = true
            · rw [if_pos hdef]
              exact ih st v m hmem hlook hup hex
            · rw [if_neg hdef]
              exact ih _ v m hmem hlook hup hex

/-- C8: `UpdateSchema` enumerates the registered versions in lexicographic
(sorted-string) order; a successful run applies only versions that were not
already present (in sorted order), skips the default version unless
`execDefault`, and inserts one SchemaMigration row per applied version; a
missing registered version with empty up SQL makes the run fail. -/
theorem updateSchema_spec (migs : List (String × Migration)) (existing : List String)
    (execDefault : Bool) (hreg : Registered migs) :
    (List.Sorted (· ≤ ·) (MigrationVersions migs) ∧
      (MigrationVersions migs).Perm (migs.map Prod.fst)) ∧
    (∀ st, UpdateSchema migs existing execDefault = .ok st →
      List.Sorted (· ≤ ·) st.applied ∧
      (∀ v ∈ st.applied, v ∉ existing) ∧
      (execDefault = false → DefaultVersion ∉ st.applied) ∧
      st.schemaRows = st.applied) ∧
    ((∃ p ∈ migs, p.2.upSQL = "" ∧ p.1 ∉ existing) →
      ∃ e, UpdateSchema migs existing execDefault = .error e) := by
  refine ⟨⟨List.sorted_insertionSort _ _, List.perm_insertionSort _ _⟩, ?_, ?_⟩
  · intro st h
    obtain ⟨newly, h1, h2, h3, h4⟩ :=
      updateLoop_ok_props migs existing execDefault hreg.2 (MigrationVersions migs)
        ⟨[], [], []⟩ st h
    simp only [List.nil_append] at h1 h2
    refine ⟨?_, ?_, ?_, h2.trans h1.symm⟩
    · rw [h1]
      exact List.Pairwise.sublist h3 (List.sorted_insertionSort _ _)
    · intro v hv
      exact (h4 v (h1 ▸ hv)).1
    · intro hexec hmem
      exact (h4 DefaultVersion (h1 ▸ hmem)).2 hexec rfl
  · rintro ⟨p, hp, hup, hex⟩
    have hlook := lookup_eq_of_mem migs hreg.1 p.1 p.2 hp
    have hvmem : p.1 ∈ MigrationVersions migs :=
      (List.perm_insertionSort (· ≤ ·) (migs.map Prod.fst)).mem_iff.mpr
        (List.mem_map_of_mem Prod.fst hp)
    exact updateLoop_error migs existing execDefault (MigrationVersions migs)
      ⟨[], [], []⟩ p.1 p.2 hvmem hlook hup hex

theorem updateSchema_spec_witness :
    UpdateSchema
        [("2020-01-02:00:00:00", ⟨"up2", "", false⟩),
          ("2020-01-01:00:00:00", ⟨"up1", "", false⟩),
          (DefaultVersion, ⟨"updef", "", true⟩)]
        ["2020-01-01:00:00:00"] false =
      .ok ⟨["2020-01-02:00:00:00"], ["2020-01-02:00:00:00"], ["up2"]⟩ ∧
    DefaultVersion ∉ (["2020-01-02:00:00:00"] : List String) ∧
    "2020-01-02:00:00:00" ∉ (["2020-01-01:00:00:00"] : List String) := by
  have hok : UpdateSchema
      [("2020-01-02:00:00:00", ⟨"up2", "", false⟩),
        ("2020-01-01:00:00:00", ⟨"up1", "", false⟩),
        (DefaultVersion, ⟨"updef", "", true⟩)]
      ["2020-01-01:00:00:00"] false =
      .ok ⟨["2020-01-02:00:00:00"], ["2020-01-02:00:00:00"], ["up2"]⟩ := by
    with_unfolding_all rfl
  have h := (updateSchema_spec
      [("2020-01-02:00:00:00", ⟨"up2", "", false⟩),
        ("2020-01-01:00:00:00", ⟨"up1", "", false⟩),
        (DefaultVersion, ⟨"updef", "", true⟩)]
      ["2020-01-01:00:00:00"] false (by refine ⟨?_, ?_⟩ <;> decide)).2.1 _ hok
  exact ⟨hok, h.2.2.1 rfl, h.2.1 "2020-01-02:00:00:00" (by simp)⟩

/-! ## C3: default SELECT limit -/

theorem whereOpt_ok (f cmp v : String) (q : Query) (s : String) (t : Nat) (q' : Query)
    (h : whereOpt f cmp v q = .ok (s, t, q')) :
    t = typeQuery ∧ q' = { q with Args := q.Args ++ [v] } := by
  simp only [whereOpt] at h
  split at h
  · cases h
  · simp only [Except.ok.injEq, Prod.mk.injEq] at h
    exact ⟨h.2.1.symm, h.2.2.symm⟩

theorem limitOf_of_typeQuery (o : QOpt) (d : Int) (h : optTypeOf o = typeQuery) :
    limitOf o d = d := by
  cases o <;> simp [limitOf] <;> simp [optTypeOf, typePagination, typeQuery] at h

theorem offsetOf_of_typeQuery (o : QOpt) (d : Int) (h : optTypeOf o = typeQuery) :
    offsetOf o d = d := by
  cases o <;> simp [offsetOf] <;> simp [optTypeOf, typePagination, typeQuery] at h

theorem eq_all_of_optTypeOf_queryAll (o : QOpt) (h : optTypeOf o = typeQueryAll) :
    o = QOpt.all := by
  cases o
  case all => rfl
  case orOpt opts =>
    exfalso
    simp only [optTypeOf, typeQueryAll, typeQuery] at h
    split at h <;> omega
  case andOpt opts =>
    exfalso
    simp only [optTypeOf, typeQueryAll, typeQuery] at h
    split at h <;> omega
  all_goals simp [optTypeOf, typeQueryAll, typeQuery, typePagination, typeOrder, typeHaving,
    typeColumns, typeJoin] at h

theorem okTriple {a s : String} {b t : Nat} {c q' : Query}
    (h : (Except.ok (a, b, c) : Except String (String × Nat × Query)) = .ok (s, t, q')) :
    s = a ∧ t = b ∧ q' = c := by
  simp only [Except.ok.injEq, Prod.mk.injEq] at h
  exact ⟨h.1.symm, h.2.1.symm, h.2.2.symm⟩

/-- Joint invariant of the option evaluator: on success an option reports its
classifier code, and only `Limit` / `Offset` touch the limit and offset
state; the where-list evaluator emits one fragment per option and leaves
limit and offset untouched. -/
theorem stateChange : ∀ n : Nat,
    (∀ o : QOpt, sizeOf o = n → ∀ (q : Query) (s : String) (t : Nat) (q' : Query),
      evalOpt o q = .ok (s, t, q') →
      t = optTypeOf o ∧ q'.limit = limitOf o q.limit ∧ q'.offset = offsetOf o q.offset) ∧
    (∀ l : List QOpt, sizeOf l = n → ∀ (msg : String) (q : Query) (ss : List String)
      (q' : Query), evalWhereList msg l q = .ok (ss, q') →
      ss.length = l.length ∧ q'.limit = q.limit ∧ q'.offset = q.offset) := by
  intro n
  induction n using Nat.strong_induction_on with
  | _ n ih =>
    constructor
    · intro o hsize q s t q' h
      cases o with
      | equal f v =>
        obtain ⟨ht, hq⟩ := whereOpt_ok f eqOp v q s t q' h
        subst ht
        subst hq
        exact ⟨rfl, rfl, rfl⟩
      | notEqual f v =>
        obtain ⟨ht, hq⟩ := whereOpt_ok f neqOp v q s t q' h
        subst ht
        subst hq
        exact ⟨rfl, rfl, rfl⟩
      | lessThan f v =>
        obtain ⟨ht, hq⟩ := whereOpt_ok f ltOp v q s t q' h
        subst ht
        subst hq
        exact ⟨rfl, rfl, rfl⟩
      | lessOrEqual f v =>
        obtain ⟨ht, hq⟩ := whereOpt_ok f lteOp v q s t q' h
        subst ht
        subst hq
        exact ⟨rfl, rfl, rfl⟩
      | greaterThan f v =>
        obtain ⟨ht, hq⟩ := whereOpt_ok f gtOp v q s t q' h
        subst ht
        subst hq
        exact ⟨rfl, rfl, rfl⟩
      | greaterOrEqual f v =>
        obtain ⟨ht, hq⟩ := whereOpt_ok f gteOp v q s t q' h
        subst ht
        subst hq
        exact ⟨rfl, rfl, rfl⟩
      | like f p =>
        obtain ⟨ht, hq⟩ := whereOpt_ok f likeOp p q s t q' h
        subst ht
        subst hq
        exact ⟨rfl, rfl, rfl⟩
      | raw query args =>
        simp only [evalOpt] at h
        split at h
        · cases h
        · split at h
          · cases h
          · obtain ⟨hs, ht, hq⟩ := okTriple h
            subst ht
            subst hq
            exact ⟨rfl, rfl, rfl⟩
      | inOpt field values =>
        simp only [evalOpt] at h
        split at h
        · cases h
        · split at h
          · cases h
          · obtain ⟨hs, ht, hq⟩ := okTriple h
            subst ht
            subst hq
            exact ⟨rfl, rfl, rfl⟩
      | orOpt opts =>
        have hlt : sizeOf opts < n := by
          subst hsize
          simp only [QOpt.orOpt.sizeOf_spec]
          omega
        simp only [evalOpt, bind, Except.bind] at h
        split at h
        · cases h
        · rename_i v hlist
          obtain ⟨queries, q₁⟩ := v
          have hl := (ih _ hlt).2 opts rfl _ q queries q₁ hlist
          split at h
          · rename_i hzero
            obtain ⟨hs, ht, hq⟩ := okTriple h
            subst ht
            subst hq
            have hlen : opts.length = 0 := by
              rw [← hl.1]
              exact hzero
            refine ⟨?_, hl.2.1, hl.2.2⟩
            simp [optTypeOf, hlen]
          · rename_i hzero
            obtain ⟨hs, ht, hq⟩ := okTriple h
            subst ht
            subst hq
            have hlen : ¬ opts.length = 0 := by
              rw [← hl.1]
              exact hzero
            refine ⟨?_, hl.2.1, hl.2.2⟩
            simp [optTypeOf, hlen]
      | andOpt opts =>
        have hlt : sizeOf opts < n := by
          subst hsize
          simp only [QOpt.andOpt.sizeOf_spec]
          omega
        simp only [evalOpt, bind, Except.bind] at h
        split at h
        · cases h
        · rename_i v hlist
          obtain ⟨queries, q₁⟩ := v
          have hl := (ih _ hlt).2 opts rfl _ q queries q₁ hlist
          split at h
          · rename_i hzero
            obtain ⟨hs, ht, hq⟩ := okTriple h
            subst ht
            subst hq
            have hlen : opts.length = 0 := by
              rw [← hl.1]
              exact hzero
            refine ⟨?_, hl.2.1, hl.2.2⟩
            simp [optTypeOf, hlen]
          · rename_i hzero
            obtain ⟨hs, ht, hq⟩ := okTriple h
            subst ht
            subst hq
            have hlen : ¬ opts.length = 0 := by
              rw [← hl.1]
              exact hzero
            refine ⟨?_, hl.2.1, hl.2.2⟩
            simp [optTypeOf, hlen]
      | all =>
        obtain ⟨hs, ht, hq⟩ := okTriple h
        subst ht
        subst hq
        exact ⟨rfl, rfl, rfl⟩
      | having opts =>
        have hlt : sizeOf opts < n := by
          subst hsize
          simp only [QOpt.having.sizeOf_spec]
          omega
        simp only [evalOpt, bind, Except.bind] at h
        split at h
        · cases h
        · split at h
          · cases h
          · rename_i v hlist
            obtain ⟨queries, q₁⟩ := v
            have hl := (ih _ hlt).2 opts rfl _ q queries q₁ hlist
            obtain ⟨hs, ht, hq⟩ := okTriple h
            subst ht
            subst hq
            exact ⟨rfl, hl.2.1, hl.2.2⟩
      | groupBy cols =>
        simp only [evalOpt] at h
        split at h
        · cases h
        · split at h
          · cases h
          · obtain ⟨hs, ht, hq⟩ := okTriple h
            subst ht
            subst hq
            exact ⟨rfl, rfl, rfl⟩
      | limit m =>
        simp only [evalOpt] at h
        split at h
        · cases h
        · split at h
          · cases h
          · obtain ⟨hs, ht, hq⟩ := okTriple h
            subst ht
            subst hq
            exact ⟨rfl, rfl, rfl⟩
      | offset m =>
        simp only [evalOpt] at h
        split at h
        · cases h
        · split at h
          · cases h
          · obtain ⟨hs, ht, hq⟩ := okTriple h
            subst ht
            subst hq
            exact ⟨rfl, rfl, rfl⟩
      | order field orderBy =>
        simp only [evalOpt] at h
        split at h
        · cases h
        · split at h
          · cases h
          · obtain ⟨hs, ht, hq⟩ := okTriple h
            subst ht
            subst hq
            exact ⟨rfl, rfl, rfl⟩
      | columns cols =>
        simp only [evalOpt] at h
        split at h
        · cases h
        · obtain ⟨hs, ht, hq⟩ := okTriple h
          subst ht
          subst hq
          exact ⟨rfl, rfl, rfl⟩
      | join condition cols =>
        simp only [evalOpt] at h
        split at h
        · cases h
        · split at h
          · cases h
          · obtain ⟨hs, ht, hq⟩ := okTriple h
            subst ht
            subst hq
            exact ⟨rfl, rfl, rfl⟩
    · intro l hsize msg q ss q' h
      cases l with
      | nil =>
        simp only [evalWhereList, Except.ok.injEq, Prod.mk.injEq] at h
        obtain ⟨hss, hq⟩ := h
        subst hss
        subst hq
        exact ⟨rfl, rfl, rfl⟩
      | cons o rest =>
        have hlto : sizeOf o < n := by
          subst hsize
          simp only [List.cons.sizeOf_spec]
          omega
        have hltr : sizeOf rest < n := by
          subst hsize
          simp only [List.cons.sizeOf_spec]
          omega
        simp only [evalWhereList, bind, Except.bind] at h
        split at h
        · cases h
        · rename_i v hopt
          obtain ⟨s₁, t₁, q₁⟩ := v
          split at h
          · cases h
          · rename_i htq
            have ho := (ih _ hlto).1 o rfl q s₁ t₁ q₁ hopt
            have htq1 : t₁ = typeQuery := by
              by_contra hcon
              exact htq hcon
            split at h
            · cases h
            · rename_i w hrest
              obtain ⟨ss₂, q₂⟩ := w
              have hr := (ih _ hltr).2 rest rfl msg q₁ ss₂ q₂ hrest
              simp only [Except.ok.injEq, Prod.mk.injEq] at h
              obtain ⟨hss, hq⟩ := h
              subst hss
              subst hq
              have hoT : optTypeOf o = typeQuery := htq1 ▸ ho.1.symm
              refine ⟨by simp [hr.1], ?_, ?_⟩
              · rw [hr.2.1, ho.2.1, limitOf_of_typeQuery o q.limit hoT]
              · rw [hr.2.2, ho.2.2, offsetOf_of_typeQuery o q.offset hoT]

theorem lastLimit_cons_of_ne (o : QOpt) (rest : List QOpt) (h : ∀ m, o ≠ QOpt.limit m) :
    lastLimit (o :: rest) = lastLimit rest := by
  cases o <;> first
    | rfl
    | exact absurd rfl (h _)

theorem lastLimit_eq_none (opts : List QOpt) (h : ∀ o ∈ opts, isLimitOpt o = false) :
    lastLimit opts = none := by
  induction opts with
  | nil => rfl
  | cons o rest ih =>
    have ho := h o (List.mem_cons_self o rest)
    have hne : ∀ m, o ≠ QOpt.limit m := by
      intro m he
      subst he
      simp [isLimitOpt] at ho
    rw [lastLimit_cons_of_ne o rest hne]
    exact ih (fun x hx => h x (List.mem_cons_of_mem o hx))

theorem isAllOpt_eq_false (o : QOpt) (h : o ≠ QOpt.all) : isAllOpt o = false := by
  cases o <;> first
    | rfl
    | exact absurd rfl h

theorem goHasSuffix_append (a b suf : String) (h : goHasSuffix b suf = true) :
    goHasSuffix (a ++ b) suf = true := by
  simp only [goHasSuffix, List.isSuffixOf_iff_suffix] at h ⊢
  have hl : (a ++ b).toList = a.toList ++ b.toList := rfl
  rw [hl]
  exact h.trans (List.suffix_append a.toList b.toList)

/-- What one pass of the Build loop establishes: the resulting limit is the
value of the last `Limit` option (default: the incoming limit), and the
query-all flag records whether an `All()` option was seen. -/
theorem buildLoop_props : ∀ (opts : List QOpt) (q : Query) (ws : List String) (isAll : Bool)
    (res : Query × List String × Bool),
    buildLoop opts (q, ws, isAll) = .ok res →
    res.1.limit = (lastLimit opts).getD q.limit ∧
    res.2.2 = (isAll || opts.any isAllOpt) := by
  intro opts
  induction opts with
  | nil =>
    intro q ws isAll res h
    cases h
    exact ⟨rfl, by simp⟩
  | cons o rest ih =>
    intro q ws isAll res h
    simp only [buildLoop, bind, Except.bind] at h
    split at h
    · cases h
    · rename_i v hopt
      obtain ⟨s, t, q₁⟩ := v
      have ho := (stateChange (sizeOf o)).1 o rfl q s t q₁ hopt
      split at h
      · rename_i hta
        have hoall : o = QOpt.all := eq_all_of_optTypeOf_queryAll o (ho.1.symm.trans hta)
        subst hoall
        have hrec := ih q₁ ws true res h
        have hq₁ : q₁.limit = q.limit := ho.2.1
        refine ⟨?_, ?_⟩
        · rw [hrec.1, hq₁]
          rfl
        · rw [hrec.2]
          simp [isAllOpt]
      · split at h
        · rename_i hta htq
          have hrec := ih q₁ ws isAll res h
          have honotall : o ≠ QOpt.all := by
            intro he
            subst he
            exact hta ho.1
          refine ⟨?_, ?_⟩
          · rw [hrec.1]
            by_cases hlim : ∃ m, o = QOpt.limit m
            · obtain ⟨m, rfl⟩ := hlim
              rw [ho.2.1]
              show (lastLimit rest).getD (limitOf (QOpt.limit m) q.limit) =
                (lastLimit (QOpt.limit m :: rest)).getD q.limit
              simp only [limitOf, lastLimit]
              cases hrl : lastLimit rest <;> simp [hrl]
            · have hne : ∀ m, o ≠ QOpt.limit m := by
                intro m he
                exact hlim ⟨m, he⟩
              have hpres : limitOf o q.limit = q.limit := by
                cases o <;> first
                  | rfl
                  | exact absurd rfl (hne _)
              rw [ho.2.1, hpres, lastLimit_cons_of_ne o rest hne]
          · rw [hrec.2]
            simp [List.any_cons, isAllOpt_eq_false o honotall]
        · rename_i hta htq
          have hrec := ih q₁ (ws ++ [s]) isAll res h
          have htq1 : t = typeQuery := by
            by_contra hcon
            exact htq hcon
          have hoT : optTypeOf o = typeQuery := htq1 ▸ ho.1.symm
          have honotall : o ≠ QOpt.all := by
            intro he
            subst he
            simp [optTypeOf, typeQuery, typeQueryAll] at hoT
          refine ⟨?_, ?_⟩
          · rw [hrec.1, ho.2.1, limitOf_of_typeQuery o q.limit hoT]
            have hne : ∀ m, o ≠ QOpt.limit m := by
              intro m he
              subst he
              simp [optTypeOf, typeQuery, typePagination] at hoT
            rw [lastLimit_cons_of_ne o rest hne]
          · rw [hrec.2]
            simp [List.any_cons, isAllOpt_eq_false o honotall]

/-- C3 counterexample: with options `[Offset(5)]` (neither `All()` nor a
`Limit`), the built fragment is ` LIMIT 1000 OFFSET 5`, which does not end
with `LIMIT 1000`; and with an explicit `Limit(0)` the emitted limit is the
default 1000, not 0. -/
theorem build_limit_counterexample :
    Build [QOpt.offset 5] OpSelect [] =
      .ok { queryType := OpSelect, offset := 5, limit := 1000,
            QueryFrag := " LIMIT 1000 OFFSET 5" } ∧
    goHasSuffix " LIMIT 1000 OFFSET 5" "LIMIT 1000" = false ∧
    Build [QOpt.limit 0] OpSelect [] =
      .ok { queryType := OpSelect, limit := 1000, QueryFrag := " LIMIT 1000" } := by
  refine ⟨?_, ?_, ?_⟩
  · with_unfolding_all rfl
  · with_unfolding_all rfl
  · with_unfolding_all rfl

/-- Inversion of `Build`: on success, the result's limit is the loop's limit
with the default applied, its offset is the loop's offset, and the fragment
is the base fragment followed by the LIMIT clause (present exactly when the
limit field is nonzero) and the OFFSET clause (likewise). -/
theorem build_inv (opts : List QOpt) (qt : String) (args : List String) (stmt : Query)
    (h : Build opts qt args = .ok stmt) :
    ∃ q₀ ws isAll,
      buildLoop opts ({ queryType := qt, Args := args }, [], false) = .ok (q₀, ws, isAll) ∧
      stmt.limit = (if q₀.limit = 0 ∧ qt = OpSelect ∧ isAll = false then DefaultSelectLimit
        else q₀.limit) ∧
      stmt.offset = q₀.offset ∧
      stmt.QueryFrag = buildFragBase q₀ ws ++
        (if stmt.limit = 0 then "" else " LIMIT " ++ toString stmt.limit) ++
        (if stmt.offset = 0 then "" else " OFFSET " ++ toString stmt.offset) := by
  simp only [Build, bind, Except.bind] at h
  split at h
  · cases h
  · rename_i v hloop
    obtain ⟨q₀, ws, isAll⟩ := v
    refine ⟨q₀, ws, isAll, hloop, ?_⟩
    simp only [Except.ok.injEq] at h
    subst h
    by_cases h1 : q₀.limit = 0 <;> by_cases h2 : qt = OpSelect <;>
      by_cases h3 : isAll = false <;> by_cases hoff : q₀.offset = 0 <;>
      simp [h1, h2, h3, hoff, DefaultSelectLimit, String.append_empty, String.append_assoc]

/-- C3 amended: for every option list built for a SELECT — with neither
`All()` nor a `Limit` option, the effective limit is the default 1000 and,
when no OFFSET clause follows, the fragment ends with `LIMIT 1000`; with
`All()` and no `Limit` the limit field stays 0, and a LIMIT clause is
emitted exactly when the limit field is nonzero; an explicit last `Limit(n)`
with n > 0 makes the emitted limit n (`Limit(0)` counts as no limit, so the
default applies unless `All()` is present). -/
theorem build_default_limit (opts : List QOpt) (stmt : Query)
    (h : Build opts OpSelect [] = .ok stmt) :
    ((∀ o ∈ opts, isAllOpt o = false ∧ isLimitOpt o = false) →
      stmt.limit = DefaultSelectLimit ∧
      (stmt.offset = 0 → goHasSuffix stmt.QueryFrag "LIMIT 1000" = true)) ∧
    ((∀ o ∈ opts, isLimitOpt o = false) → (∃ o ∈ opts, isAllOpt o = true) →
      stmt.limit = 0) ∧
    (∀ n, lastLimit opts = some n → 0 < n → stmt.limit = n) ∧
    (∃ pre, stmt.QueryFrag = pre ++
      (if stmt.limit = 0 then "" else " LIMIT " ++ toString stmt.limit) ++
      (if stmt.offset = 0 then "" else " OFFSET " ++ toString stmt.offset)) := by
  obtain ⟨q₀, ws, isAll, hloop, hlim, hoffs, hfrag⟩ := build_inv opts OpSelect [] stmt h
  have hb := buildLoop_props opts { queryType := OpSelect, Args := [] } [] false
    (q₀, ws, isAll) hloop
  have hq0 : q₀.limit = (lastLimit opts).getD 0 := hb.1
  have hall : isAll = opts.any isAllOpt := by
    simpa using hb.2
  refine ⟨?_, ?_, ?_, ⟨buildFragBase q₀ ws, hfrag⟩⟩
  · intro hnone
    have hlast : lastLimit opts = none := lastLimit_eq_none opts (fun o ho => (hnone o ho).2)
    have hlim0 : q₀.limit = 0 := by
      rw [hq0, hlast]
      rfl
    have hallf : isAll = false := by
      rw [hall]
      exact List.any_eq_false.mpr (fun o ho => by simp [(hnone o ho).1])
    have h1000 : stmt.limit = DefaultSelectLimit := by
      rw [hlim, if_pos ⟨hlim0, rfl, hallf⟩]
    refine ⟨h1000, ?_⟩
    intro hoffz
    rw [hfrag, h1000, hoffz]
    rw [if_neg (by norm_num [DefaultSelectLimit]), if_pos rfl, String.append_empty]
    exact goHasSuffix_append _ _ _ (by with_unfolding_all rfl)
  · intro hnolim hhas
    have hlast : lastLimit opts = none := lastLimit_eq_none opts hnolim
    have hlim0 : q₀.limit = 0 := by
      rw [hq0, hlast]
      rfl
    have hallt : ¬ isAll = false := by
      rw [hall]
      obtain ⟨o, ho, hao⟩ := hhas
      simp [List.any_eq_true.mpr ⟨o, ho, hao⟩]
    rw [hlim, if_neg (fun hc => hallt hc.2.2), hlim0]
  · intro n hlast hpos
    have hlimn : q₀.limit = n := by
      rw [hq0, hlast]
      rfl
    rw [hlim, if_neg (fun hc => by rw [hlimn] at hc; omega), hlimn]

theorem build_default_limit_witness :
    Build [QOpt.equal "a" "b"] OpSelect [] =
      .ok { queryType := OpSelect, Args := ["b"], limit := 1000,
            QueryFrag := "WHERE \"a\" = $1 LIMIT 1000" } ∧
    goHasSuffix "WHERE \"a\" = $1 LIMIT 1000" "LIMIT 1000" = true := by
  have hok : Build [QOpt.equal "a" "b"] OpSelect [] =
      .ok { queryType := OpSelect, Args := ["b"], limit := 1000,
            QueryFrag := "WHERE \"a\" = $1 LIMIT 1000" } := by
    with_unfolding_all rfl
  have hA := (build_default_limit [QOpt.equal "a" "b"] _ hok).1 (by decide)
  exact ⟨hok, hA.2 rfl⟩

end Pgc
